import Mathlib

/-!
Shallow embedding of the research-digest pipeline (collectors' `Paper` record,
relevance scorer, summarizer fallback, deduplicator, digest serialization and
the daily/weekly orchestrators) together with proofs settling the spec claims.

Python floats are modelled as exact rationals (`ℚ`); all category weights and
raw scores are small integers, so sums are exact in both models.  Python
strings are modelled as `String` / `List Char`; the texts of interest are
ASCII, where `Char.toLower` agrees with `str.lower` and the regex word class
`\w` is `[A-Za-z0-9_]`.
-/

/-- Word character for the regex `\b` boundary: `[A-Za-z0-9_]`. -/
def isWordChar (c : Char) : Bool :=
  c.isAlpha || c.isDigit || c = '_'

/-- Lower-case a character list (model of `str.lower` / `re.IGNORECASE` on ASCII). -/
def lowerList (s : List Char) : List Char :=
  s.map Char.toLower

/-- Whitespace characters stripped by Python `str.strip()` (ASCII part). -/
def isPySpace (c : Char) : Bool :=
  c = ' ' || c = '\t' || c = '\n' || c = '\r' || c = '\x0b' || c = '\x0c'

/-- Model of Python `str.strip()`: drop leading and trailing whitespace. -/
def pyStrip (s : List Char) : List Char :=
  ((s.dropWhile isPySpace).reverse.dropWhile isPySpace).reverse

/-- The literal keyword `kw` occurs in `text` starting at index `i`, with a
regex word boundary (`\b`) on both sides, as in
`re.compile(r'\b' + re.escape(keyword) + r'\b')`. -/
def matchesAt (kw text : List Char) (i : Nat) : Bool :=
  ((text.drop i).take kw.length == kw)
    && (i == 0 || !isWordChar (text.getD (i - 1) ' '))
    && (i + kw.length == text.length || !isWordChar (text.getD (i + kw.length) ' '))

/-- Model of `pattern.search(text)` for the compiled keyword patterns: a
case-insensitive whole-word occurrence of `kw` anywhere in `text`. -/
def kwMatch (kw text : String) : Bool :=
  let k := lowerList kw.toList
  let t := lowerList text.toList
  (List.range (t.length + 1)).any (fun i => matchesAt k t i)

/-- Plain (case-sensitive) substring containment, used to state scenario
hypotheses of the form "the abstract contains ...". -/
def containsSub (sub s : String) : Bool :=
  let k := sub.toList
  let t := s.toList
  (List.range (t.length + 1)).any (fun i => (t.drop i).take k.length == k)

/-- The `Paper` dataclass of `src/collectors/arxiv_collector.py`, extended by
the ad hoc attribute `matched_keywords` that the scorer attaches dynamically
(`paper.matched_keywords = keywords`); it is not a declared dataclass field,
which `to_dict` below reflects. -/
structure Paper where
  title : String
  authors : List String
  abstract : String
  url : String
  pdf_url : Option String
  source : String
  source_id : String
  published_date : String
  categories : List String
  relevance_score : ℚ := 0
  summary : String := ""
  matched_keywords : List String := []
deriving DecidableEq, Repr

/-- Keyword configuration of `RelevanceScorer`: four category lists, weighted
primary +3, secondary +2, tertiary +1, exclude −10. -/
structure Keywords where
  primary : List String
  secondary : List String
  tertiary : List String
  exclude : List String
deriving DecidableEq, Repr

/-- Model of `RelevanceScorer._get_fallback_keywords`. -/
def fallback_keywords : Keywords where
  primary := ["mechanism design", "auction theory", "capacity market",
    "electricity market", "power market", "peak load pricing",
    "carbon pricing", "emissions trading", "renewable integration"]
  secondary := ["vertical integration", "price regulation", "real options",
    "market power", "welfare economics", "consumer choice"]
  tertiary := ["game theory", "contract theory", "energy policy"]
  exclude := ["machine learning", "deep learning", "neural network",
    "cryptocurrency", "blockchain"]

/-- The text scored by `score_paper`: `f"{paper.title} {paper.abstract}"`. -/
def paperText (p : Paper) : String :=
  p.title ++ " " ++ p.abstract

/-- The inner loop of `score_paper` over one category: for each keyword that
matches, add the category weight to the running score, and (only when the
weight is positive) append the keyword to the matched list. -/
def scoreLoop (w : ℚ) (kws : List String) (text : String)
    (st : ℚ × List String) : ℚ × List String :=
  kws.foldl
    (fun st k =>
      if kwMatch k text then
        (st.1 + w, if 0 < w then st.2 ++ [k] else st.2)
      else st)
    st

/-- Model of `RelevanceScorer.score_paper`: iterate the four categories in dictionary
order, then normalize with `min(100, max(0, (score / 45) * 100))`. -/
def score_paper (cfg : Keywords) (p : Paper) : ℚ × List String :=
  let text := paperText p
  let st := scoreLoop 3 cfg.primary text (0, [])
  let st := scoreLoop 2 cfg.secondary text st
  let st := scoreLoop 1 cfg.tertiary text st
  let st := scoreLoop (-10) cfg.exclude text st
  (min 100 (max 0 (st.1 / 45 * 100)), st.2)

/-- Number of keywords of one list that match the text (each keyword counts
once however often it occurs in the text). -/
def matchCount (kws : List String) (text : String) : Nat :=
  (kws.filter (fun k => kwMatch k text)).length

/-- The un-normalized score accumulated by `score_paper` before clamping. -/
def rawScore (cfg : Keywords) (text : String) : ℚ :=
  3 * matchCount cfg.primary text + 2 * matchCount cfg.secondary text
    + matchCount cfg.tertiary text - 10 * matchCount cfg.exclude text

/-- Integer form of the raw score: all four weights are integers, so the
rational accumulation equals this exactly. -/
def rawScoreInt (cfg : Keywords) (text : String) : ℤ :=
  3 * matchCount cfg.primary text + 2 * matchCount cfg.secondary text
    + matchCount cfg.tertiary text - 10 * matchCount cfg.exclude text

/-- The positive-category keywords that match, in category order: exactly the
`matched_keywords` list built by `score_paper`. -/
def matchedList (cfg : Keywords) (text : String) : List String :=
  cfg.primary.filter (fun k => kwMatch k text)
    ++ cfg.secondary.filter (fun k => kwMatch k text)
    ++ cfg.tertiary.filter (fun k => kwMatch k text)

/-- Model of Python `abstract.split('. ')`: split at each non-overlapping,
leftmost occurrence of the two-character separator.  `acc` holds the current
token in reverse. -/
def splitDotSpace (acc : List Char) : List Char → List (List Char)
  | '.' :: ' ' :: rest => acc.reverse :: splitDotSpace [] rest
  | c :: rest => splitDotSpace (c :: acc) rest
  | [] => [acc.reverse]

/-- Model of `'. '.join(sentences[:2])` on the split of the abstract. -/
def firstTwoSentences (abstract : String) : List Char :=
  List.intercalate ['.', ' '] ((splitDotSpace [] abstract.toList).take 2)

/-- Model of `PaperSummarizer._simple_summary`: the deterministic no-backend fallback.
Empty abstract gives the sentinel; otherwise join the first two `'. '`-split
sentences, truncate to 297 chars plus `"..."` when longer than 300, and append
a final `'.'`. -/
def simple_summary (abstract : String) : String :=
  if abstract = "" then "No abstract available."
  else
    let summary := firstTwoSentences abstract
    let summary :=
      if 300 < summary.length then summary.take 297 ++ ['.', '.', '.'] else summary
    String.mk (summary ++ ['.'])

/-- Model of `PaperSummarizer.summarize_paper` when no backend is configured
(`self.client` is `None`), and the fallback path on any backend failure. -/
def summarize_no_backend (p : Paper) : String :=
  simple_summary p.abstract

/-- The deduplication key of `ResearchDigest._deduplicate_papers`:
`paper.title.lower().strip()[:100]`. -/
def titleKey (t : String) : String :=
  String.mk ((pyStrip (lowerList t.toList)).take 100)

/-- The loop of `_deduplicate_papers`: keep a paper iff its key was not seen
before, accumulating seen keys. -/
def dedupeAux (seen : List String) : List Paper → List Paper
  | [] => []
  | p :: ps =>
    let k := titleKey p.title
    if k ∈ seen then dedupeAux seen ps
    else p :: dedupeAux (k :: seen) ps

/-- Model of `ResearchDigest._deduplicate_papers`. -/
def deduplicate_papers (papers : List Paper) : List Paper :=
  dedupeAux [] papers

/-- JSON values, the target of `json.dump` in `_save_digest`. -/
inductive Json where
  | null : Json
  | str : String → Json
  | num : ℚ → Json
  | arr : List Json → Json
  | obj : List (String × Json) → Json

/-- Model of `Paper.to_dict`, i.e. `dataclasses.asdict`: serializes exactly the
declared dataclass fields, in declaration order.  The dynamically attached
`matched_keywords` attribute is not a dataclass field and does not appear. -/
def to_dict (p : Paper) : List (String × Json) :=
  [("title", .str p.title),
   ("authors", .arr (p.authors.map .str)),
   ("abstract", .str p.abstract),
   ("url", .str p.url),
   ("pdf_url", match p.pdf_url with | some u => .str u | none => .null),
   ("source", .str p.source),
   ("source_id", .str p.source_id),
   ("published_date", .str p.published_date),
   ("categories", .arr (p.categories.map .str)),
   ("relevance_score", .num p.relevance_score),
   ("summary", .str p.summary)]

/-- Read a string field back out of a parsed JSON value. -/
def getStr : Json → Option String
  | .str s => some s
  | _ => none

/-- Map a fallible reader over a list, failing if any element fails. -/
def mapOpt (f : α → Option β) : List α → Option (List β)
  | [] => some []
  | a :: l => do
    let b ← f a
    let bs ← mapOpt f l
    some (b :: bs)

/-- Read a list-of-strings field back out of a parsed JSON value. -/
def getStrList : Json → Option (List String)
  | .arr xs => mapOpt getStr xs
  | _ => none

/-- Reconstruct a `Paper` from a parsed JSON object by field name (how the
dashboard consumer reads the persisted digest back).  `matched_keywords`
defaults to `[]` when the field is absent. -/
def paper_from_dict (d : List (String × Json)) : Option Paper := do
  let title ← (d.lookup "title").bind getStr
  let authors ← (d.lookup "authors").bind getStrList
  let abstract ← (d.lookup "abstract").bind getStr
  let url ← (d.lookup "url").bind getStr
  let pdf_url ←
    match d.lookup "pdf_url" with
    | some .null => some none
    | some (.str u) => some (some u)
    | _ => none
  let source ← (d.lookup "source").bind getStr
  let source_id ← (d.lookup "source_id").bind getStr
  let published_date ← (d.lookup "published_date").bind getStr
  let categories ← (d.lookup "categories").bind getStrList
  let relevance_score ←
    match d.lookup "relevance_score" with
    | some (.num q) => some q
    | _ => none
  let summary ← (d.lookup "summary").bind getStr
  let matched_keywords ←
    match d.lookup "matched_keywords" with
    | none => some []
    | some j => getStrList j
  some { title, authors, abstract, url, pdf_url, source, source_id,
         published_date, categories, relevance_score, summary,
         matched_keywords }

/-- The JSON document written by `ResearchDigest._save_digest`. -/
def save_digest_json (generated_at period : String) (papers : List Paper) : Json :=
  .obj [("generated_at", .str generated_at),
        ("period", .str period),
        ("paper_count", .num papers.length),
        ("papers", .arr (papers.map (fun p => .obj (to_dict p))))]

/-- Parse the persisted digest document back into its paper records. -/
def digest_papers_from_json (j : Json) : Option (List Paper) :=
  match j with
  | .obj d =>
    match d.lookup "papers" with
    | some (.arr xs) =>
      mapOpt (fun x => match x with | .obj pd => paper_from_dict pd | _ => none) xs
    | _ => none
  | _ => none

/-- The updated record appended by the loop of `filter_and_score_papers` when
a paper passes the threshold: `paper.relevance_score = score`,
`paper.matched_keywords = keywords`. -/
def scoreUpdate (cfg : Keywords) (p : Paper) : Paper :=
  { p with relevance_score := (score_paper cfg p).1,
           matched_keywords := (score_paper cfg p).2 }

/-- The `scored_papers` list built by the loop of `filter_and_score_papers`:
in input order, each paper whose score passes `score >= min_score`, with its
score and matched keywords set. -/
def keptPapers (cfg : Keywords) (min_score : ℚ) (papers : List Paper) : List Paper :=
  papers.filterMap
    (fun p => if min_score ≤ (score_paper cfg p).1 then some (scoreUpdate cfg p) else none)

/-- Insert into a descending-by-score list, after every element of strictly
greater score and before every element of smaller-or-equal score: the stable
descending insertion. -/
def insertDesc (p : Paper) : List Paper → List Paper
  | [] => [p]
  | q :: qs =>
    if q.relevance_score ≤ p.relevance_score then p :: q :: qs
    else q :: insertDesc p qs

/-- Stable sort, descending by `relevance_score`.  Python's
`list.sort(key=..., reverse=True)` is a stable sort; any stable descending
sort computes the same list, so insertion sort is an extensionally faithful
model. -/
def sortDesc : List Paper → List Paper
  | [] => []
  | p :: ps => insertDesc p (sortDesc ps)

/-- Model of `RelevanceScorer.filter_and_score_papers`: score every paper, keep those
with `score >= min_score` (fields set), and sort descending by score. -/
def filter_and_score_papers (cfg : Keywords) (papers : List Paper)
    (min_score : ℚ) : List Paper :=
  sortDesc (keptPapers cfg min_score papers)

/-- Model of `PaperSummarizer.summarize_papers_batch` with no backend: set `summary`
on the first `max_papers` papers, leave the rest untouched. -/
def summarize_papers_batch (papers : List Paper) (max_papers : Nat) : List Paper :=
  ((papers.take max_papers).map
      (fun p => { p with summary := summarize_no_backend p }))
    ++ papers.drop max_papers

/-- Pipeline status strings of `run_daily` / `run_weekly`. -/
inductive Status where
  | success : Status
  | no_papers : Status
  | no_valid_papers : Status
  | no_relevant_papers : Status
deriving DecidableEq, Repr

/-- The observable outcome of one pipeline run: the returned status and
count, the papers persisted by `_save_digest` (if reached) and the papers
sent by email (if reached). -/
structure RunResult where
  status : Status
  count : Nat
  saved : Option (List Paper)
  sent : Option (List Paper)
deriving DecidableEq, Repr

/-- Model of `ResearchDigest.run_daily`, parameterized by the batch validator (an
external collaborator) and the collected papers.  Each empty stage returns
its distinct status and skips the rest; otherwise summaries are generated,
the full scored list is saved and the top 15 papers are sent. -/
def run_daily (cfg : Keywords) (validate : List Paper → List Paper)
    (collected : List Paper) : RunResult :=
  if collected.isEmpty then ⟨.no_papers, 0, none, none⟩
  else
    let papers := validate collected
    if papers.isEmpty then ⟨.no_valid_papers, 0, none, none⟩
    else
      let papers := filter_and_score_papers cfg papers 5
      if papers.isEmpty then ⟨.no_relevant_papers, 0, none, none⟩
      else
        let papers := summarize_papers_batch papers 15
        ⟨.success, papers.length, some papers, some (papers.take 15)⟩

/-- Model of `ResearchDigest.run_weekly`: one `if papers:` around the whole pipeline;
inside it every stage runs unconditionally, the digest is saved and the top
30 papers are sent whatever the intermediate lists were, and the status is
`success` iff the final list is non-empty, `no_papers` otherwise. -/
def run_weekly (cfg : Keywords) (validate : List Paper → List Paper)
    (collected : List Paper) : RunResult :=
  if collected.isEmpty then ⟨.no_papers, 0, none, none⟩
  else
    let papers := validate collected
    let papers := filter_and_score_papers cfg papers 10
    let papers := summarize_papers_batch papers 30
    ⟨if papers.isEmpty then .no_papers else .success, papers.length,
     some papers, some (papers.take 30)⟩

/-- Model of `main`: `sys.exit(0 if result["status"] == "success" else 1)`. -/
def exit_code (r : RunResult) : Nat :=
  if r.status = .success then 0 else 1

/-- Constructor for concrete test papers: title, abstract and source vary in
the scenarios, the remaining fields take innocuous defaults. -/
def mkPaper (title abstract source : String) : Paper where
  title := title
  authors := []
  abstract := abstract
  url := ""
  pdf_url := none
  source := source
  source_id := ""
  published_date := ""
  categories := []

/-- The Scenario A paper of the spec (the scorer's own `test_scorer` mock
from `src/processors/relevance_scorer.py`). -/
def scenarioPaper : Paper :=
  mkPaper "Mechanism Design for Capacity Markets in Electricity Systems"
    "We study the optimal design of capacity mechanisms for ensuring security of supply in power markets."
    "arxiv"

/-- Sixteen distinct primary keywords, for exercising the 100-point clamp. -/
def manyKeywords : Keywords :=
  ⟨["k0", "k1", "k2", "k3", "k4", "k5", "k6", "k7", "k8", "k9", "ka", "kb",
    "kc", "kd", "ke", "kf"], [], [], []⟩

/-- A paper matching all sixteen keywords, with raw score 48 > 45. -/
def manyPaper : Paper :=
  mkPaper "k0 k1 k2 k3 k4 k5 k6 k7 k8 k9 ka kb kc kd ke kf" "" "arxiv"

/-- A paper carrying a dynamically attached matched keyword, for the
serialization round-trip counterexample. -/
def scoredPaper : Paper :=
  { mkPaper "Capacity Markets" "An abstract." "arxiv" with
    relevance_score := 20 / 3, matched_keywords := ["mechanism design"] }

set_option maxRecDepth 10000

/-! ### Scorer lemmas -/

theorem scoreLoop_cons (w : ℚ) (k : String) (ks : List String) (text : String)
    (st : ℚ × List String) :
    scoreLoop w (k :: ks) text st
      = scoreLoop w ks text
          (if kwMatch k text then (st.1 + w, if 0 < w then st.2 ++ [k] else st.2)
           else st) := rfl

theorem scoreLoop_fst (w : ℚ) (kws : List String) (text : String)
    (st : ℚ × List String) :
    (scoreLoop w kws text st).1 = st.1 + w * matchCount kws text := by
  induction kws generalizing st with
  | nil => simp [scoreLoop, matchCount]
  | cons k ks ih =>
    rw [scoreLoop_cons]
    by_cases h : kwMatch k text
    · rw [if_pos h, ih]
      simp only [matchCount, List.filter_cons, h, if_true, List.length_cons]
      push_cast
      ring
    · rw [if_neg h, ih]
      simp only [matchCount, List.filter_cons, h]
      simp

theorem scoreLoop_snd (w : ℚ) (kws : List String) (text : String)
    (st : ℚ × List String) :
    (scoreLoop w kws text st).2
      = if 0 < w then st.2 ++ kws.filter (fun k => kwMatch k text) else st.2 := by
  induction kws generalizing st with
  | nil => simp [scoreLoop]
  | cons k ks ih =>
    rw [scoreLoop_cons]
    by_cases h : kwMatch k text
    · rw [if_pos h, ih]
      by_cases hw : (0:ℚ) < w
      · simp [hw, List.filter_cons, h]
      · simp [hw, List.filter_cons, h]
    · rw [if_neg h, ih]
      simp [List.filter_cons, h]

/-- Decomposition of `score_paper`: the normalized clamp of the raw weighted sum,
paired with the positive-category matches in iteration order. -/
theorem score_paper_eq (cfg : Keywords) (p : Paper) :
    score_paper cfg p
      = (min 100 (max 0 (rawScore cfg (paperText p) / 45 * 100)),
         matchedList cfg (paperText p)) := by
  unfold score_paper
  refine Prod.ext ?_ ?_
  · simp only [scoreLoop_fst, rawScore]
    ring_nf
  · simp only [scoreLoop_snd, matchedList]
    norm_num

theorem score_paper_fst (cfg : Keywords) (p : Paper) :
    (score_paper cfg p).1 = min 100 (max 0 (rawScore cfg (paperText p) / 45 * 100)) := by
  rw [score_paper_eq]

theorem score_paper_snd (cfg : Keywords) (p : Paper) :
    (score_paper cfg p).2 = matchedList cfg (paperText p) := by
  rw [score_paper_eq]

theorem score_nonneg (cfg : Keywords) (p : Paper) : 0 ≤ (score_paper cfg p).1 := by
  rw [score_paper_fst]
  exact le_min (by norm_num) (le_max_left 0 _)

theorem score_le_100 (cfg : Keywords) (p : Paper) : (score_paper cfg p).1 ≤ 100 :=
  (score_paper_fst cfg p) ▸ min_le_left 100 _

theorem score_of_raw_neg (cfg : Keywords) (p : Paper)
    (h : rawScore cfg (paperText p) < 0) : (score_paper cfg p).1 = 0 := by
  rw [score_paper_fst]
  have h1 : rawScore cfg (paperText p) / 45 * 100 < 0 := by
    have : rawScore cfg (paperText p) / 45 < 0 := div_neg_of_neg_of_pos h (by norm_num)
    exact mul_neg_of_neg_of_pos this (by norm_num)
  rw [max_eq_left h1.le, min_eq_right (by norm_num)]

theorem score_of_raw_big (cfg : Keywords) (p : Paper)
    (h : 45 < rawScore cfg (paperText p)) : (score_paper cfg p).1 = 100 := by
  rw [score_paper_fst]
  have h1 : (100:ℚ) < rawScore cfg (paperText p) / 45 * 100 := by
    rw [div_mul_eq_mul_div, lt_div_iff₀ (by norm_num : (0:ℚ) < 45)]
    linarith
  rw [max_eq_right (by linarith : (0:ℚ) ≤ rawScore cfg (paperText p) / 45 * 100),
    min_eq_left h1.le]

theorem rawScore_eq_int (cfg : Keywords) (t : String) :
    rawScore cfg t = ((rawScoreInt cfg t : ℤ) : ℚ) := by
  unfold rawScore rawScoreInt
  push_cast
  ring

theorem matchCount_mono (kws : List String) (t1 t2 : String)
    (h : ∀ k ∈ kws, kwMatch k t1 = true → kwMatch k t2 = true) :
    matchCount kws t1 ≤ matchCount kws t2 := by
  unfold matchCount
  induction kws with
  | nil => simp
  | cons k ks ih =>
    have ih2 := ih (fun k hk => h k (List.mem_cons_of_mem _ hk))
    by_cases h1 : kwMatch k t1
    · have h2 := h k (List.mem_cons_self _ _) h1
      simp [List.filter_cons, h1, h2]
      omega
    · by_cases h2 : kwMatch k t2 <;> simp [List.filter_cons, h1, h2] <;> omega

theorem matchCount_congr (kws : List String) (t1 t2 : String)
    (h : ∀ k ∈ kws, kwMatch k t1 = kwMatch k t2) :
    matchCount kws t1 = matchCount kws t2 := by
  unfold matchCount
  induction kws with
  | nil => simp
  | cons k ks ih =>
    have ih2 := ih (fun k hk => h k (List.mem_cons_of_mem _ hk))
    have h1 := h k (List.mem_cons_self _ _)
    rw [List.filter_cons, List.filter_cons, ← h1]
    by_cases hk : kwMatch k t1 <;> simp [hk, ih2]

theorem rawScore_mono (cfg : Keywords) (t1 t2 : String)
    (hpos : ∀ k ∈ cfg.primary ++ cfg.secondary ++ cfg.tertiary,
      kwMatch k t1 = true → kwMatch k t2 = true)
    (hexc : ∀ k ∈ cfg.exclude, kwMatch k t1 = kwMatch k t2) :
    rawScore cfg t1 ≤ rawScore cfg t2 := by
  have hp : matchCount cfg.primary t1 ≤ matchCount cfg.primary t2 :=
    matchCount_mono _ _ _ (fun k hk => hpos k (by simp [hk]))
  have hs : matchCount cfg.secondary t1 ≤ matchCount cfg.secondary t2 :=
    matchCount_mono _ _ _ (fun k hk => hpos k (by simp [hk]))
  have ht : matchCount cfg.tertiary t1 ≤ matchCount cfg.tertiary t2 :=
    matchCount_mono _ _ _ (fun k hk => hpos k (by simp [hk]))
  have he : matchCount cfg.exclude t1 = matchCount cfg.exclude t2 :=
    matchCount_congr _ _ _ hexc
  unfold rawScore
  rw [he]
  have hp2 : (matchCount cfg.primary t1 : ℚ) ≤ matchCount cfg.primary t2 := by
    exact_mod_cast hp
  have hs2 : (matchCount cfg.secondary t1 : ℚ) ≤ matchCount cfg.secondary t2 := by
    exact_mod_cast hs
  have ht2 : (matchCount cfg.tertiary t1 : ℚ) ≤ matchCount cfg.tertiary t2 := by
    exact_mod_cast ht
  linarith

theorem normalized_mono {a b : ℚ} (h : a ≤ b) :
    min 100 (max 0 (a / 45 * 100)) ≤ min 100 (max 0 (b / 45 * 100)) := by
  gcongr

theorem rawScore_exclude_cons (cfg : Keywords) (e : String) (t : String)
    (h : kwMatch e t = true) :
    rawScore { cfg with exclude := e :: cfg.exclude } t = rawScore cfg t - 10 := by
  unfold rawScore matchCount
  simp only [List.filter_cons, h, if_true, List.length_cons]
  push_cast
  ring

/-! ### Stable descending sort lemmas -/

theorem insertDesc_perm (p : Paper) (l : List Paper) :
    (insertDesc p l).Perm (p :: l) := by
  induction l with
  | nil => exact List.Perm.refl _
  | cons q qs ih =>
    unfold insertDesc
    by_cases h : q.relevance_score ≤ p.relevance_score
    · rw [if_pos h]
    · rw [if_neg h]
      exact (ih.cons q).trans (List.Perm.swap p q qs)

theorem sortDesc_perm (l : List Paper) : (sortDesc l).Perm l := by
  induction l with
  | nil => exact List.Perm.refl _
  | cons p ps ih =>
    exact (insertDesc_perm p (sortDesc ps)).trans (ih.cons p)

theorem mem_insertDesc (x p : Paper) (l : List Paper) :
    x ∈ insertDesc p l ↔ x = p ∨ x ∈ l := by
  rw [(insertDesc_perm p l).mem_iff, List.mem_cons]

theorem insertDesc_pairwise (p : Paper) (l : List Paper)
    (hl : l.Pairwise (fun a b => b.relevance_score ≤ a.relevance_score)) :
    (insertDesc p l).Pairwise (fun a b => b.relevance_score ≤ a.relevance_score) := by
  induction l with
  | nil => simp [insertDesc]
  | cons q qs ih =>
    unfold insertDesc
    by_cases h : q.relevance_score ≤ p.relevance_score
    · rw [if_pos h]
      refine List.Pairwise.cons ?_ hl
      intro b hb
      rcases List.mem_cons.mp hb with rfl | hb
      · exact h
      · exact le_trans (List.rel_of_pairwise_cons hl hb) h
    · rw [if_neg h]
      refine List.Pairwise.cons ?_ (ih (List.Pairwise.sublist (List.sublist_cons_self q qs) hl))
      intro b hb
      rcases (mem_insertDesc b p qs).mp hb with rfl | hb
      · exact (not_le.mp h).le
      · exact List.rel_of_pairwise_cons hl hb

theorem sortDesc_pairwise (l : List Paper) :
    (sortDesc l).Pairwise (fun a b => b.relevance_score ≤ a.relevance_score) := by
  induction l with
  | nil => simp [sortDesc]
  | cons p ps ih => exact insertDesc_pairwise p (sortDesc ps) ih

theorem insertDesc_filter (p : Paper) (l : List Paper) (s : ℚ) :
    (insertDesc p l).filter (fun q => decide (q.relevance_score = s))
      = if p.relevance_score = s
        then p :: l.filter (fun q => decide (q.relevance_score = s))
        else l.filter (fun q => decide (q.relevance_score = s)) := by
  induction l with
  | nil =>
    show List.filter _ [p] = _
    rw [List.filter_cons]
    by_cases hp : p.relevance_score = s <;> simp [hp]
  | cons q qs ih =>
    unfold insertDesc
    by_cases h : q.relevance_score ≤ p.relevance_score
    · rw [if_pos h]
      by_cases hp : p.relevance_score = s <;> simp [List.filter_cons, hp]
    · rw [if_neg h]
      have hq : ¬ q.relevance_score = s ∨ ¬ p.relevance_score = s := by
        by_cases hp : p.relevance_score = s
        · left
          intro hqs
          exact h (le_of_eq (hqs.trans hp.symm))
        · right
          exact hp
      by_cases hp : p.relevance_score = s
      · have hq2 : ¬ q.relevance_score = s := by
          rcases hq with h1 | h1
          · exact h1
          · exact absurd hp h1
        simp [List.filter_cons, hq2, ih, hp]
      · simp [List.filter_cons, ih, hp]

theorem sortDesc_filter (l : List Paper) (s : ℚ) :
    (sortDesc l).filter (fun q => decide (q.relevance_score = s))
      = l.filter (fun q => decide (q.relevance_score = s)) := by
  induction l with
  | nil => rfl
  | cons p ps ih =>
    show (insertDesc p (sortDesc ps)).filter _ = _
    rw [insertDesc_filter]
    by_cases hp : p.relevance_score = s <;> simp [List.filter_cons, hp, ih]

theorem mem_keptPapers (cfg : Keywords) (m : ℚ) (papers : List Paper) (q : Paper) :
    q ∈ keptPapers cfg m papers
      ↔ ∃ p ∈ papers, m ≤ (score_paper cfg p).1 ∧ scoreUpdate cfg p = q := by
  unfold keptPapers
  rw [List.mem_filterMap]
  constructor
  · rintro ⟨p, hp, hf⟩
    by_cases h : m ≤ (score_paper cfg p).1
    · rw [if_pos h] at hf
      exact ⟨p, hp, h, Option.some_injective _ hf⟩
    · rw [if_neg h] at hf
      exact absurd hf (by simp)
  · rintro ⟨p, hp, h, rfl⟩
    exact ⟨p, hp, by rw [if_pos h]⟩

/-! ### Deduplicator lemmas -/

theorem dedupeAux_cons_mem (seen : List String) (p : Paper) (ps : List Paper)
    (h : titleKey p.title ∈ seen) :
    dedupeAux seen (p :: ps) = dedupeAux seen ps := by
  simp only [dedupeAux, if_pos h]

theorem dedupeAux_cons_not_mem (seen : List String) (p : Paper) (ps : List Paper)
    (h : titleKey p.title ∉ seen) :
    dedupeAux seen (p :: ps) = p :: dedupeAux (titleKey p.title :: seen) ps := by
  simp only [dedupeAux, if_neg h]

theorem dedupeAux_sublist (seen : List String) (l : List Paper) :
    (dedupeAux seen l).Sublist l := by
  induction l generalizing seen with
  | nil => simp [dedupeAux]
  | cons p ps ih =>
    by_cases h : titleKey p.title ∈ seen
    · rw [dedupeAux_cons_mem seen p ps h]
      exact (ih seen).trans (List.sublist_cons_self p ps)
    · rw [dedupeAux_cons_not_mem seen p ps h]
      exact (ih _).cons₂ p

theorem dedupeAux_keys (seen : List String) (l : List Paper) :
    ((dedupeAux seen l).map (fun p => titleKey p.title)).Nodup
    ∧ ∀ q ∈ dedupeAux seen l, titleKey q.title ∉ seen := by
  induction l generalizing seen with
  | nil => simp [dedupeAux]
  | cons p ps ih =>
    by_cases h : titleKey p.title ∈ seen
    · rw [dedupeAux_cons_mem seen p ps h]
      exact ih seen
    · rw [dedupeAux_cons_not_mem seen p ps h]
      have ih2 := ih (titleKey p.title :: seen)
      refine ⟨?_, ?_⟩
      · rw [List.map_cons, List.nodup_cons]
        refine ⟨?_, ih2.1⟩
        intro hmem
        rcases List.mem_map.mp hmem with ⟨q, hq, hkey⟩
        exact ih2.2 q hq (by rw [hkey]; exact List.mem_cons_self _ _)
      · intro q hq
        rcases List.mem_cons.mp hq with rfl | hq
        · exact h
        · intro hs
          exact ih2.2 q hq (List.mem_cons_of_mem _ hs)

theorem dedupeAux_covers (seen : List String) (l : List Paper) :
    ∀ p ∈ l, titleKey p.title ∈ seen
      ∨ ∃ q ∈ dedupeAux seen l, titleKey q.title = titleKey p.title := by
  induction l generalizing seen with
  | nil => simp
  | cons r rs ih =>
    intro p hp
    by_cases h : titleKey r.title ∈ seen
    · rw [dedupeAux_cons_mem seen r rs h]
      rcases List.mem_cons.mp hp with rfl | hp
      · exact Or.inl h
      · exact ih seen p hp
    · rw [dedupeAux_cons_not_mem seen r rs h]
      rcases List.mem_cons.mp hp with rfl | hp
      · exact Or.inr ⟨p, List.mem_cons_self _ _, rfl⟩
      · rcases ih (titleKey r.title :: seen) p hp with hs | ⟨q, hq, hkey⟩
        · rcases List.mem_cons.mp hs with heq | hs
          · exact Or.inr ⟨r, List.mem_cons_self _ _, heq.symm⟩
          · exact Or.inl hs
        · exact Or.inr ⟨q, List.mem_cons_of_mem _ hq, hkey⟩

theorem dedupeAux_first (seen : List String) (l : List Paper) (q : Paper)
    (hq : q ∈ dedupeAux seen l) :
    l.find? (fun r => titleKey r.title == titleKey q.title) = some q := by
  induction l generalizing seen with
  | nil => simp [dedupeAux] at hq
  | cons p ps ih =>
    by_cases h : titleKey p.title ∈ seen
    · rw [dedupeAux_cons_mem seen p ps h] at hq
      have hqk : titleKey q.title ∉ seen := (dedupeAux_keys seen ps).2 q hq
      have hne : titleKey p.title ≠ titleKey q.title := by
        intro heq
        exact hqk (heq ▸ h)
      rw [List.find?_cons_of_neg _ (by simpa using hne)]
      exact ih seen hq
    · rw [dedupeAux_cons_not_mem seen p ps h] at hq
      rcases List.mem_cons.mp hq with rfl | hq
      · rw [List.find?_cons_of_pos _ (by simp)]
      · have hqk : titleKey q.title ∉ titleKey p.title :: seen :=
          (dedupeAux_keys (titleKey p.title :: seen) ps).2 q hq
        have hne : titleKey p.title ≠ titleKey q.title := by
          intro heq
          exact hqk (heq ▸ List.mem_cons_self _ _)
        rw [List.find?_cons_of_neg _ (by simpa using hne)]
        exact ih _ hq

/-! ### Serialization lemmas -/

theorem mapOpt_getStr_map_str (l : List String) :
    mapOpt getStr (l.map Json.str) = some l := by
  induction l with
  | nil => rfl
  | cons a l ih => simp [mapOpt, getStr, ih]

theorem getStrList_arr_map_str (l : List String) :
    getStrList (Json.arr (l.map Json.str)) = some l := by
  simp [getStrList, mapOpt_getStr_map_str]

/-- Round trip of one serialized paper: every dataclass field is reproduced
exactly, and `matched_keywords` (not serialized) comes back as `[]`. -/
theorem paper_from_dict_to_dict (p : Paper) :
    paper_from_dict (to_dict p) = some { p with matched_keywords := [] } := by
  cases hpdf : p.pdf_url with
  | none =>
    simp [to_dict, paper_from_dict, hpdf, List.lookup, getStr, getStrList_arr_map_str]
  | some u =>
    simp [to_dict, paper_from_dict, hpdf, List.lookup, getStr, getStrList_arr_map_str]

theorem mapOpt_paper_objs (papers : List Paper) :
    mapOpt (fun x => match x with | .obj pd => paper_from_dict pd | _ => none)
        (papers.map (fun p => Json.obj (to_dict p)))
      = some (papers.map (fun p => { p with matched_keywords := [] })) := by
  induction papers with
  | nil => rfl
  | cons p ps ih => simp [mapOpt, paper_from_dict_to_dict, ih]

/-- Round trip of the persisted digest document on its `papers` array. -/
theorem digest_roundtrip (generated_at period : String) (papers : List Paper) :
    digest_papers_from_json (save_digest_json generated_at period papers)
      = some (papers.map (fun p => { p with matched_keywords := [] })) := by
  simp [save_digest_json, digest_papers_from_json, List.lookup, mapOpt_paper_objs]

/-- The field names actually serialized by `to_dict`. -/
theorem to_dict_keys (p : Paper) :
    (to_dict p).map Prod.fst
      = ["title", "authors", "abstract", "url", "pdf_url", "source",
         "source_id", "published_date", "categories", "relevance_score",
         "summary"] := by
  rfl

theorem summarize_batch_length (l : List Paper) (n : Nat) :
    (summarize_papers_batch l n).length = l.length := by
  simp [summarize_papers_batch]
  omega

/-! ### Claims -/

/-- C10: for every paper whose abstract is the empty string, the no-backend
fallback summary is exactly the sentinel "No abstract available.", never the
empty string. -/
theorem claim_empty_abstract_summary (p : Paper) (h : p.abstract = "") :
    summarize_no_backend p = "No abstract available."
    ∧ summarize_no_backend p ≠ "" := by
  unfold summarize_no_backend
  rw [h]
  exact ⟨rfl, by decide⟩

/-- Witness for C10 at a concrete paper. -/
theorem claim_empty_abstract_summary_witness :
    summarize_no_backend (mkPaper "A Title" "" "arxiv") = "No abstract available."
    ∧ summarize_no_backend (mkPaper "A Title" "" "arxiv") ≠ "" :=
  claim_empty_abstract_summary (mkPaper "A Title" "" "arxiv") rfl

/-- C4: for every paper the normalized relevance score returned by
`score_paper` equals `clamp(raw / 45 * 100, 0, 100)`, where `raw` is the sum
of the category weights of matched keywords; it is 0 whenever the raw score
is negative, 100 whenever the raw score exceeds 45, and always lies in
`[0, 100]`. -/
theorem claim_score_normalization (cfg : Keywords) (p : Paper) :
    (score_paper cfg p).1 = min 100 (max 0 (rawScore cfg (paperText p) / 45 * 100))
    ∧ (rawScore cfg (paperText p) < 0 → (score_paper cfg p).1 = 0)
    ∧ (45 < rawScore cfg (paperText p) → (score_paper cfg p).1 = 100)
    ∧ 0 ≤ (score_paper cfg p).1 ∧ (score_paper cfg p).1 ≤ 100 :=
  ⟨score_paper_fst cfg p, score_of_raw_neg cfg p, score_of_raw_big cfg p,
   score_nonneg cfg p, score_le_100 cfg p⟩

/-- Witness for C4 at concrete inputs: an all-exclusion paper clamps to 0; a
sixteen-primary-hit paper (raw 48) clamps to 100. -/
theorem claim_score_normalization_witness :
    rawScore ⟨[], [], [], ["alpha"]⟩ (paperText (mkPaper "alpha" "" "arxiv")) < 0
    ∧ (score_paper ⟨[], [], [], ["alpha"]⟩ (mkPaper "alpha" "" "arxiv")).1 = 0
    ∧ 45 < rawScore manyKeywords (paperText manyPaper)
    ∧ (score_paper manyKeywords manyPaper).1 = 100 := by
  have hneg : rawScore ⟨[], [], [], ["alpha"]⟩
      (paperText (mkPaper "alpha" "" "arxiv")) < 0 := by
    rw [rawScore_eq_int]
    exact_mod_cast (show rawScoreInt ⟨[], [], [], ["alpha"]⟩
      (paperText (mkPaper "alpha" "" "arxiv")) < 0 by decide)
  have hbig : 45 < rawScore manyKeywords (paperText manyPaper) := by
    rw [rawScore_eq_int]
    exact_mod_cast (show (45:ℤ) < rawScoreInt manyKeywords (paperText manyPaper)
      by decide)
  exact ⟨hneg,
    (claim_score_normalization ⟨[], [], [], ["alpha"]⟩
        (mkPaper "alpha" "" "arxiv")).2.1 hneg,
    hbig,
    (claim_score_normalization manyKeywords manyPaper).2.2.1 hbig⟩

/-- C9: the matched-keywords list returned by `score_paper` is exactly the
positive-category keywords that matched, in category order; a keyword listed
only in the exclude category never appears in it, even when it matched and
lowered the score. -/
theorem claim_matched_keywords_positive (cfg : Keywords) (p : Paper) :
    (score_paper cfg p).2 = matchedList cfg (paperText p)
    ∧ (∀ k ∈ (score_paper cfg p).2,
        (k ∈ cfg.primary ∨ k ∈ cfg.secondary ∨ k ∈ cfg.tertiary)
          ∧ kwMatch k (paperText p) = true)
    ∧ (∀ k ∈ cfg.exclude,
        k ∉ cfg.primary → k ∉ cfg.secondary → k ∉ cfg.tertiary →
          k ∉ (score_paper cfg p).2) := by
  refine ⟨score_paper_snd cfg p, ?_, ?_⟩
  · intro k hk
    rw [score_paper_snd] at hk
    unfold matchedList at hk
    rcases List.mem_append.mp hk with hk | hk
    · rcases List.mem_append.mp hk with hk | hk
      · exact ⟨Or.inl (List.mem_filter.mp hk).1, (List.mem_filter.mp hk).2⟩
      · exact ⟨Or.inr (Or.inl (List.mem_filter.mp hk).1), (List.mem_filter.mp hk).2⟩
    · exact ⟨Or.inr (Or.inr (List.mem_filter.mp hk).1), (List.mem_filter.mp hk).2⟩
  · intro k _ h1 h2 h3 hk
    rw [score_paper_snd] at hk
    unfold matchedList at hk
    rcases List.mem_append.mp hk with hk | hk
    · rcases List.mem_append.mp hk with hk | hk
      · exact h1 (List.mem_filter.mp hk).1
      · exact h2 (List.mem_filter.mp hk).1
    · exact h3 (List.mem_filter.mp hk).1

/-- Witness for C9: with the fallback keywords, the matched exclude keyword
"machine learning" does not appear in the matches. -/
theorem claim_matched_keywords_positive_witness :
    "machine learning"
      ∉ (score_paper fallback_keywords
          (mkPaper "Machine Learning Advances" "" "arxiv")).2 :=
  (claim_matched_keywords_positive fallback_keywords
      (mkPaper "Machine Learning Advances" "" "arxiv")).2.2 "machine learning"
    (by decide) (by decide) (by decide) (by decide)

/-- C6: the normalized score never decreases when the set of matched
positive-weight keywords grows (with exclude matches unchanged); matching is
boolean per keyword, so it depends only on whether each keyword occurs, not on
how often; and every matched exclude-category keyword lowers the raw score by
exactly 10, whatever other keywords match. -/
theorem claim_score_monotone (cfg : Keywords) (p q : Paper) (e : String) :
    ((∀ k ∈ cfg.primary ++ cfg.secondary ++ cfg.tertiary,
        kwMatch k (paperText p) = true → kwMatch k (paperText q) = true) →
      (∀ k ∈ cfg.exclude, kwMatch k (paperText p) = kwMatch k (paperText q)) →
      rawScore cfg (paperText p) ≤ rawScore cfg (paperText q)
        ∧ (score_paper cfg p).1 ≤ (score_paper cfg q).1)
    ∧ ((∀ k ∈ cfg.primary ++ cfg.secondary ++ cfg.tertiary ++ cfg.exclude,
        kwMatch k (paperText p) = kwMatch k (paperText q)) →
      (score_paper cfg p).1 = (score_paper cfg q).1)
    ∧ (kwMatch e (paperText p) = true →
      rawScore { cfg with exclude := e :: cfg.exclude } (paperText p)
          = rawScore cfg (paperText p) - 10
        ∧ rawScore { cfg with exclude := e :: cfg.exclude } (paperText p)
          < rawScore cfg (paperText p)) := by
  refine ⟨?_, ?_, ?_⟩
  · intro hpos hexc
    have hraw := rawScore_mono cfg _ _ hpos hexc
    exact ⟨hraw, by rw [score_paper_fst, score_paper_fst]; exact normalized_mono hraw⟩
  · intro hall
    have h1 : matchCount cfg.primary (paperText p) = matchCount cfg.primary (paperText q) :=
      matchCount_congr _ _ _ (fun k hk => hall k (by simp [hk]))
    have h2 : matchCount cfg.secondary (paperText p) = matchCount cfg.secondary (paperText q) :=
      matchCount_congr _ _ _ (fun k hk => hall k (by simp [hk]))
    have h3 : matchCount cfg.tertiary (paperText p) = matchCount cfg.tertiary (paperText q) :=
      matchCount_congr _ _ _ (fun k hk => hall k (by simp [hk]))
    have h4 : matchCount cfg.exclude (paperText p) = matchCount cfg.exclude (paperText q) :=
      matchCount_congr _ _ _ (fun k hk => hall k (by simp [hk]))
    rw [score_paper_fst, score_paper_fst]
    unfold rawScore
    rw [h1, h2, h3, h4]
  · intro he
    have heq := rawScore_exclude_cons cfg e _ he
    exact ⟨heq, by rw [heq]; linarith⟩

/-- Witness for C6 at concrete inputs: matching one more primary keyword
raises the score, and adding a matched exclude keyword lowers the raw score
by exactly 10. -/
theorem claim_score_monotone_witness :
    (score_paper ⟨["wind"], [], [], ["coal"]⟩ (mkPaper "sun" "" "arxiv")).1
      ≤ (score_paper ⟨["wind"], [], [], ["coal"]⟩ (mkPaper "wind" "" "arxiv")).1
    ∧ rawScore ⟨["wind"], [], [], ["sun", "coal"]⟩
          (paperText (mkPaper "sun" "" "arxiv"))
        = rawScore ⟨["wind"], [], [], ["coal"]⟩
            (paperText (mkPaper "sun" "" "arxiv")) - 10 :=
  ⟨((claim_score_monotone ⟨["wind"], [], [], ["coal"]⟩ (mkPaper "sun" "" "arxiv")
        (mkPaper "wind" "" "arxiv") "x").1 (by decide) (by decide)).2,
   ((claim_score_monotone ⟨["wind"], [], [], ["coal"]⟩ (mkPaper "sun" "" "arxiv")
        (mkPaper "wind" "" "arxiv") "sun").2.2 (by decide)).1⟩

/-- C3: `filter_and_score_papers` retains exactly the papers whose normalized
score is at least `min_score` (a paper scoring exactly `min_score` is kept),
sets `relevance_score` and `matched_keywords` on each retained paper, and
returns them sorted descending by score with equal-score papers kept in input
order (stable sort; `keptPapers` lists the retained papers in input order). -/
theorem claim_filter_and_score (cfg : Keywords) (papers : List Paper) (m : ℚ) :
    (filter_and_score_papers cfg papers m).Perm (keptPapers cfg m papers)
    ∧ (filter_and_score_papers cfg papers m).Pairwise
        (fun a b => b.relevance_score ≤ a.relevance_score)
    ∧ (∀ s : ℚ,
        (filter_and_score_papers cfg papers m).filter
            (fun q => decide (q.relevance_score = s))
          = (keptPapers cfg m papers).filter
              (fun q => decide (q.relevance_score = s)))
    ∧ (∀ p ∈ papers, m ≤ (score_paper cfg p).1 →
        scoreUpdate cfg p ∈ filter_and_score_papers cfg papers m)
    ∧ (∀ q ∈ filter_and_score_papers cfg papers m,
        ∃ p ∈ papers, m ≤ (score_paper cfg p).1 ∧ scoreUpdate cfg p = q) := by
  refine ⟨sortDesc_perm _, sortDesc_pairwise _, fun s => sortDesc_filter _ s, ?_, ?_⟩
  · intro p hp hscore
    exact ((sortDesc_perm (keptPapers cfg m papers)).mem_iff).mpr
      ((mem_keptPapers cfg m papers _).mpr ⟨p, hp, hscore, rfl⟩)
  · intro q hq
    exact (mem_keptPapers cfg m papers q).mp
      (((sortDesc_perm (keptPapers cfg m papers)).mem_iff).mp hq)

/-- Witness for C3: a matching paper passes the (inclusive) threshold 0 and is
returned with its score and matched keywords set. -/
theorem claim_filter_and_score_witness :
    scoreUpdate ⟨["solar"], [], [], []⟩ (mkPaper "solar power" "" "arxiv")
      ∈ filter_and_score_papers ⟨["solar"], [], [], []⟩
          [mkPaper "solar power" "" "arxiv"] 0 :=
  (claim_filter_and_score ⟨["solar"], [], [], []⟩
      [mkPaper "solar power" "" "arxiv"] 0).2.2.2.1
    (mkPaper "solar power" "" "arxiv") (List.mem_singleton.mpr rfl)
    (score_nonneg ⟨["solar"], [], [], []⟩ (mkPaper "solar power" "" "arxiv"))

/-- C7: the deduplicator returns, in stable input order, exactly the first
occurrence of each deduplication key (lowercased, stripped title truncated to
100 characters): the output is a subsequence of the input with pairwise
distinct keys, every input key is represented, and each survivor is the first
input paper bearing its key. -/
theorem claim_deduplicate (papers : List Paper) :
    (deduplicate_papers papers).Sublist papers
    ∧ ((deduplicate_papers papers).map (fun p => titleKey p.title)).Nodup
    ∧ (∀ p ∈ papers, ∃ q ∈ deduplicate_papers papers,
        titleKey q.title = titleKey p.title)
    ∧ (∀ q ∈ deduplicate_papers papers,
        papers.find? (fun r => titleKey r.title == titleKey q.title) = some q) := by
  refine ⟨dedupeAux_sublist [] papers, (dedupeAux_keys [] papers).1, ?_, ?_⟩
  · intro p hp
    rcases dedupeAux_covers [] papers p hp with h | h
    · exact absurd h (List.not_mem_nil _)
    · exact h
  · intro q hq
    exact dedupeAux_first [] papers q hq

/-- Witness for C7 (Scenario C): two papers from different sources whose
titles differ only in case and surrounding whitespace collapse to the
first-seen record. -/
theorem claim_deduplicate_witness :
    ([mkPaper "Electricity Markets" "x" "arxiv",
      mkPaper "  electricity markets " "y" "nber"].find?
        (fun r => titleKey r.title
          == titleKey (mkPaper "Electricity Markets" "x" "arxiv").title)
      = some (mkPaper "Electricity Markets" "x" "arxiv"))
    ∧ deduplicate_papers
        [mkPaper "Electricity Markets" "x" "arxiv",
         mkPaper "  electricity markets " "y" "nber"]
      = [mkPaper "Electricity Markets" "x" "arxiv"] :=
  ⟨(claim_deduplicate
      [mkPaper "Electricity Markets" "x" "arxiv",
       mkPaper "  electricity markets " "y" "nber"]).2.2.2
      (mkPaper "Electricity Markets" "x" "arxiv") (by decide),
   by decide⟩

theorem string_length_mk (l : List Char) : (String.mk l).length = l.length := rfl

/-- C5 counterexample: on a single-sentence abstract of 301 characters the
no-backend summary has 301 characters, so it is NOT truncated to at most 300
characters as the claim states (the code appends a final period after the
ellipsis). -/
theorem claim_simple_summary_counterexample :
    (simple_summary (String.mk (List.replicate 301 'a'))).length = 301
    ∧ ¬ (simple_summary (String.mk (List.replicate 301 'a'))).length ≤ 300 := by
  refine ⟨?_, ?_⟩ <;> decide

/-- C5 amended: with no backend configured the summary is the first two
`'. '`-split sentences of the abstract joined by `". "` and suffixed with
`"."`; when the joined string exceeds 300 characters, the code keeps its
first 297 characters, appends the `"..."` marker and then still appends the
final `"."`, producing exactly 301 characters ending in `"...."`. -/
theorem claim_simple_summary (abstract : String) (h : abstract ≠ "") :
    ((firstTwoSentences abstract).length ≤ 300 →
      simple_summary abstract = String.mk (firstTwoSentences abstract ++ ['.']))
    ∧ (300 < (firstTwoSentences abstract).length →
      simple_summary abstract
        = String.mk ((firstTwoSentences abstract).take 297
            ++ ['.', '.', '.', '.'])
      ∧ (simple_summary abstract).length = 301) := by
  unfold simple_summary
  rw [if_neg h]
  dsimp only
  constructor
  · intro hle
    rw [if_neg (not_lt.mpr hle)]
  · intro hgt
    rw [if_pos hgt]
    constructor
    · simp
    · rw [string_length_mk]
      simp [List.length_take]
      omega

/-- Witness for C5 at concrete inputs: a short abstract keeps its first two
sentences verbatim; a 301-character abstract yields a 301-character summary. -/
theorem claim_simple_summary_witness :
    simple_summary "First one. Second two. Third three."
      = String.mk (firstTwoSentences "First one. Second two. Third three." ++ ['.'])
    ∧ (simple_summary (String.mk (List.replicate 301 'a'))).length = 301 :=
  ⟨(claim_simple_summary "First one. Second two. Third three." (by decide)).1
      (by decide),
   ((claim_simple_summary (String.mk (List.replicate 301 'a')) (by decide)).2
      (by decide)).2⟩

/-- C1 amended: parsing the persisted digest JSON back reproduces the eleven
serialized dataclass attributes of every PaperRecord exactly (byte-for-byte
strings, exact rational score) with matching field names; `matched_keywords`
is not a dataclass field, is never serialized, and parses back as `[]`. -/
theorem claim_digest_roundtrip (generated_at period : String) (papers : List Paper) :
    digest_papers_from_json (save_digest_json generated_at period papers)
      = some (papers.map (fun p => { p with matched_keywords := [] }))
    ∧ ∀ p : Paper, (to_dict p).map Prod.fst
        = ["title", "authors", "abstract", "url", "pdf_url", "source",
           "source_id", "published_date", "categories", "relevance_score",
           "summary"] :=
  ⟨digest_roundtrip generated_at period papers, to_dict_keys⟩

/-- C1 counterexample: a scored paper carries a non-empty `matched_keywords`,
but the serialized object has no `matched_keywords` field and the round trip
does not reproduce the attribute. -/
theorem claim_digest_roundtrip_counterexample :
    scoredPaper.matched_keywords ≠ []
    ∧ "matched_keywords" ∉ (to_dict scoredPaper).map Prod.fst
    ∧ digest_papers_from_json (save_digest_json "2026-10-12" "daily" [scoredPaper])
        ≠ some [scoredPaper] := by
  refine ⟨by decide, by decide, ?_⟩
  rw [digest_roundtrip]
  simp only [List.map_cons, List.map_nil, ne_eq, Option.some.injEq, List.cons.injEq,
    and_true]
  intro h
  have h2 := congrArg Paper.matched_keywords h
  simp [scoredPaper, mkPaper] at h2

/-- C2 amended: the daily run short-circuits each empty stage with its
distinct status (`no_papers`, `no_valid_papers`, `no_relevant_papers`) and
saves/sends nothing in those cases; the weekly run only distinguishes an
empty collection, reports `no_papers` whenever the scored list ends up empty
(whichever stage emptied it), and in that case still saves and sends an empty
digest; any non-success status exits with code 1. -/
theorem claim_pipeline_status (cfg : Keywords) (validate : List Paper → List Paper)
    (collected : List Paper) :
    (collected = [] →
      run_daily cfg validate collected = ⟨.no_papers, 0, none, none⟩
      ∧ run_weekly cfg validate collected = ⟨.no_papers, 0, none, none⟩)
    ∧ (collected ≠ [] → validate collected = [] →
      run_daily cfg validate collected = ⟨.no_valid_papers, 0, none, none⟩)
    ∧ (collected ≠ [] → validate collected ≠ [] →
      filter_and_score_papers cfg (validate collected) 5 = [] →
      run_daily cfg validate collected = ⟨.no_relevant_papers, 0, none, none⟩)
    ∧ (collected ≠ [] →
      filter_and_score_papers cfg (validate collected) 10 = [] →
      (run_weekly cfg validate collected).status = .no_papers
      ∧ (run_weekly cfg validate collected).saved = some []
      ∧ (run_weekly cfg validate collected).sent = some [])
    ∧ ((run_daily cfg validate collected).status ≠ .success →
      exit_code (run_daily cfg validate collected) = 1)
    ∧ ((run_weekly cfg validate collected).status ≠ .success →
      exit_code (run_weekly cfg validate collected) = 1) := by
  refine ⟨?_, ?_, ?_, ?_, ?_, ?_⟩
  · rintro rfl
    exact ⟨rfl, rfl⟩
  · intro hc hv
    unfold run_daily
    rw [if_neg (by simpa [List.isEmpty_iff] using hc)]
    dsimp only
    rw [hv]
    rfl
  · intro hc hv hf
    unfold run_daily
    rw [if_neg (by simpa [List.isEmpty_iff] using hc)]
    dsimp only
    rw [if_neg (by simpa [List.isEmpty_iff] using hv), hf]
    rfl
  · intro hc hf
    unfold run_weekly
    rw [if_neg (by simpa [List.isEmpty_iff] using hc)]
    dsimp only
    rw [hf]
    exact ⟨rfl, rfl, rfl⟩
  · intro h
    unfold exit_code
    rw [if_neg h]
  · intro h
    unfold exit_code
    rw [if_neg h]

/-- Witness for C2: an empty collection short-circuits both runs with
`no_papers` and nothing saved or sent. -/
theorem claim_pipeline_status_witness :
    run_daily fallback_keywords (fun l => l) [] = ⟨.no_papers, 0, none, none⟩
    ∧ run_weekly fallback_keywords (fun l => l) [] = ⟨.no_papers, 0, none, none⟩ :=
  (claim_pipeline_status fallback_keywords (fun l => l) []).1 rfl

/-- C2 counterexample: a weekly run that collects one paper but whose
validation drops everything reports `no_papers` (not the distinct
`no_valid_papers`), and still persists and sends an empty digest rather than
skipping those stages. -/
theorem claim_pipeline_status_counterexample :
    run_weekly fallback_keywords (fun _ => [])
        [mkPaper "Carbon Pricing" "x" "arxiv"]
      = ⟨.no_papers, 0, some [], some []⟩
    ∧ (run_weekly fallback_keywords (fun _ => [])
        [mkPaper "Carbon Pricing" "x" "arxiv"]).status ≠ .no_valid_papers
    ∧ (run_weekly fallback_keywords (fun _ => [])
        [mkPaper "Carbon Pricing" "x" "arxiv"]).saved ≠ none := by
  refine ⟨by decide, by decide, by decide⟩

/-- C8 counterexample: the Scenario A paper — titled "Mechanism Design for
Capacity Markets in Electricity Systems", abstract containing
"capacity mechanisms" and "power markets" — does NOT get "capacity market"
into its matched keywords under the fallback set: the plural
"Capacity Markets" in the title defeats the trailing regex word boundary. -/
theorem claim_scenarioA_counterexample :
    containsSub "capacity mechanisms" scenarioPaper.abstract = true
    ∧ containsSub "power markets" scenarioPaper.abstract = true
    ∧ "capacity market" ∉ (score_paper fallback_keywords scenarioPaper).2 := by
  have hm : (score_paper fallback_keywords scenarioPaper).2
      = ["mechanism design"] := by
    rw [score_paper_snd]
    decide
  refine ⟨by decide, by decide, ?_⟩
  rw [hm]
  decide

/-- C8 amended: under the fallback keyword set the Scenario A paper scores
positively and its matched keywords contain "mechanism design", but neither
"capacity market" nor "power market": the plural forms "Markets"/"markets"
in the text block the trailing word boundary of the compiled patterns. -/
theorem claim_scenarioA :
    0 < (score_paper fallback_keywords scenarioPaper).1
    ∧ "mechanism design" ∈ (score_paper fallback_keywords scenarioPaper).2
    ∧ "capacity market" ∉ (score_paper fallback_keywords scenarioPaper).2
    ∧ "power market" ∉ (score_paper fallback_keywords scenarioPaper).2 := by
  have hm : (score_paper fallback_keywords scenarioPaper).2
      = ["mechanism design"] := by
    rw [score_paper_snd]
    decide
  have hraw : rawScore fallback_keywords (paperText scenarioPaper) = 3 := by
    rw [rawScore_eq_int]
    exact_mod_cast (show rawScoreInt fallback_keywords (paperText scenarioPaper) = 3
      by decide)
  refine ⟨?_, ?_, ?_, ?_⟩
  · rw [score_paper_fst, hraw]
    norm_num
  · rw [hm]
    decide
  · rw [hm]
    decide
  · rw [hm]
    decide
